import Mathlib

/-!
Verification of the `http_router` crate (src/src/lib.rs): a shallow embedding of
the `router!` macro's matching-and-dispatch semantics, of the regexes it builds
in `@one_route_with_method` (lib.rs:229-251), of the typed-parameter parsing in
`@parse_type` / `@call_pure` / `@call` (lib.rs:173-226), of the entry patterns
(lib.rs:294-336), and of the pattern cache `__http_router_create_regex`
(lib.rs:144-156).
-/

namespace HttpRouter

/-- Modelled from the spec: the `Method` enum of `mod method` (the file
`method.rs` is not part of the sources given); the spec fixes it as the closed
enumeration GET, POST, PUT, PATCH, DELETE, OPTIONS, HEAD, TRACE, CONNECT with
decidable equality (the dispatcher only compares verbs for equality,
lib.rs:230). -/
inductive Method where
  | GET | POST | PUT | PATCH | DELETE | OPTIONS | HEAD | TRACE | CONNECT
deriving DecidableEq

/-- Target-type tags for placeholders, the closed set the repository's own
tests exercise (`u32` and `String`, lib.rs:354-361): a placeholder `{name: ty}`
is parsed with Rust's `str::parse::<ty>()` (lib.rs:174-178). -/
inductive Ty where
  | u32
  | str
deriving DecidableEq

/-- A parsed placeholder value. -/
inductive Value where
  | num (n : Nat)
  | vstr (s : String)
deriving DecidableEq

/-- Numeric value of a digit list, most significant first. -/
def digitsVal (ds : List Char) : Nat :=
  ds.foldl (fun a c => 10 * a + (c.toNat - 48)) 0

/-- Rust's `str::parse::<u32>()`: an optional leading plus sign, then one or
more ASCII digits, rejecting overflow past `u32::MAX`. -/
def parseU32 (s : String) : Option Nat :=
  let ds := match s.data with
    | '+' :: rest => rest
    | l => l
  if ds.isEmpty then none
  else if ds.all Char.isDigit && decide (digitsVal ds < 4294967296) then some (digitsVal ds)
  else none

/-- `@parse_type` (lib.rs:174-178): parse one captured substring with the
declared target type; `String`'s parse never fails and returns the string
itself. -/
def parseValue : Ty → String → Option Value
  | .u32, s => (parseU32 s).map Value.num
  | .str, s => some (Value.vstr s)

/-- One declared path segment: a literal token or a `{name: ty}` placeholder
(names are irrelevant to dispatch and omitted). -/
inductive Seg where
  | lit (text : String)
  | param (ty : Ty)
deriving DecidableEq

/-- A character of the class `[\w-]` from the wildcard `([\w-]+)` that
`@one_route_with_method` emits for a placeholder (lib.rs:236), in its ASCII
reading: word characters (letters, digits, underscore) or hyphen. -/
def wordHyphen (c : Char) : Bool :=
  c.isAlphanum || c = '_' || c = '-'

/-- The characters the regex crate treats as syntax when they appear
unescaped in a pattern.  The builder embeds literal text without escaping
(lib.rs:238), so a literal containing any of these is not matched verbatim
by the real matcher; verbatim-matching statements must exclude them all. -/
def regexMeta (c : Char) : Bool :=
  c = '.' || c = '+' || c = '*' || c = '?' || c = '(' || c = ')' ||
    c = '[' || c = ']' || c = '\x7b' || c = '\x7d' || c = '|' ||
    c = '^' || c = '$' || c = '\\'

/-- Whether one pattern character of a literal (embedded unescaped into the
regex, lib.rs:238) matches one path character: `.` is the regex any-character
wildcard (not matching a newline); every other character is modelled as
matching itself.  This is exact for literal text whose only `regexMeta`
character, if any, is `.` — which covers the identifier literals the macro
accepts and the dot counterexample below; theorems asserting verbatim
matching restrict themselves to literals with no `regexMeta` character at
all, where this model and the real matcher coincide. -/
def litCharOk (l c : Char) : Bool :=
  if l = '.' then decide (c ≠ '\n') else decide (l = c)

/-- Match a literal's characters against a prefix of the input, returning the
unconsumed rest. -/
def litMatch : List Char → List Char → Option (List Char)
  | [], cs => some cs
  | _ :: _, [] => none
  | l :: ls, c :: cs => if litCharOk l c then litMatch ls cs else none

/-- Semantics of the anchored regex `@one_route_with_method` builds for a
non-empty segment list (lib.rs:231-245): for each segment, a `/` followed by
the literal's text (unescaped) or by the capture `([\w-]+)`, the whole
anchored by `^...$`.  A capture takes the maximal run of `[\w-]` characters:
since `/` is not in the class and every capture is followed in the pattern by
`/` or by the end anchor, the regex backtracking admits exactly that run.
Returns the captured substrings in order, as `captures.iter().skip(1)` does
(lib.rs:246). -/
def matchChunks : List Seg → List Char → Option (List String)
  | [], [] => some []
  | [], _ :: _ => none
  | _ :: _, [] => none
  | .lit l :: rest, c :: cs =>
    if c = '/' then
      match litMatch l.data cs with
      | some cs₂ => matchChunks rest cs₂
      | none => none
    else none
  | .param _ :: rest, c :: cs =>
    if c = '/' then
      let run := cs.takeWhile wordHyphen
      if run.isEmpty then none
      else
        match matchChunks rest (cs.dropWhile wordHyphen) with
        | some caps => some (String.mk run :: caps)
        | none => none
    else none

/-- Full pattern semantics including the home special case: a route declared
with zero segments builds the regex `"^/$"` (lib.rs:242) and so accepts
exactly the root path. -/
def matchPath (segs : List Seg) (p : String) : Option (List String) :=
  match segs with
  | [] => if p = "/" then some [] else none
  | _ :: _ => matchChunks segs p.data

/-- The regex string built by `@one_route_with_method` (lib.rs:231-243):
starts with `^`, then per segment a `/` and either the literal text pushed
verbatim (no escaping, lib.rs:238) or `([\w-]+)`; a zero-segment (home) route,
whose string is still just `^`, gets a `/` appended; finally `$`. -/
def buildRegexString (segs : List Seg) : String :=
  let s := segs.foldl
    (fun acc seg =>
      acc ++ "/" ++ match seg with
        | .lit l => l
        | .param _ => "([\\w-]+)")
    "^"
  (if s.length = 1 then s ++ "/" else s) ++ "$"

/-- The declared target types of a segment list's placeholders, in order. -/
def paramTys : List Seg → List Ty
  | [] => []
  | .lit _ :: rest => paramTys rest
  | .param t :: rest => t :: paramTys rest

/-- The sequence of types `@call` actually parses the captures with
(lib.rs:188-226).  The arms for 0 to 6 placeholders pair capture `i` with the
`i`-th declared type (`{$id_k : $ty_k : k-1}`); the 7-placeholder arm
(lib.rs:225) instead writes `{$id6 : $ty6 : 6}` for the last pair, so capture
6 is parsed with the sixth declared type and the seventh declared type is
never used.  There is no arm for 8 or more placeholders, so such routes do
not compile and never reach dispatch. -/
def effTys : List Ty → List Ty
  | [t1, t2, t3, t4, t5, t6, _] => [t1, t2, t3, t4, t5, t6, t6]
  | ts => ts

/-- `@call_pure` (lib.rs:181-186): parse each capture left to right with its
assigned type; `@parse_type` makes the whole entry return `None` as soon as
one parse fails (lib.rs:176). -/
def parseAll : List Ty → List String → Option (List Value)
  | [], [] => some []
  | t :: ts, s :: ss =>
    match parseValue t s with
    | some v =>
      match parseAll ts ss with
      | some vs => some (v :: vs)
      | none => none
    | none => none
  | _, _ => none

/-- One declared route: a verb, the path template's segments, and a handler
taking the context and the parsed placeholder values in capture order.  (In
Rust each handler has a fixed arity; the value list stands for its argument
tuple.) -/
structure Entry (C : Type) (R : Type) where
  verb : Method
  segs : List Seg
  handler : C → List Value → R

/-- `@one_route_with_method` plus `@call` (lib.rs:229-251): first the verb
check `if method != expected { return None }` (lib.rs:230), then the regex
test on the path, then the typed parses; any failure makes the entry yield
`none`, a full match yields the handler's result. -/
def tryRoute {C R : Type} (e : Entry C R) (ctx : C) (m : Method) (p : String) : Option R :=
  if m ≠ e.verb then none
  else
    match matchPath e.segs p with
    | some caps =>
      match parseAll (effTys (paramTys e.segs)) caps with
      | some vals => some (e.handler ctx vals)
      | none => none
    | none => none

/-- The entry patterns' loop (lib.rs:296-307 and 312-329): `result` starts as
`None` and each route is tried only while `result.is_none()`, i.e. the first
entry to yield `Some` wins; in the home-first arm the home entry is simply
the first entry tried. -/
def routeList {C R : Type} : List (Entry C R) → C → Method → String → Option R
  | [], _, _, _ => none
  | e :: es, ctx, m, p =>
    match tryRoute e ctx m p with
    | some r => some r
    | none => routeList es ctx m p

/-- The closure the `router!` macro returns: try the entries in declaration
order and finish with `result.unwrap_or_else(|| default(&context))`
(lib.rs:307, 327), the default-only arm (lib.rs:332-336) being the empty
entry list. -/
def dispatch {C R : Type} (es : List (Entry C R)) (fallback : C → R)
    (ctx : C) (m : Method) (p : String) : R :=
  (routeList es ctx m p).getD (fallback ctx)

/-- The compiled form of a matcher string.  `regex::Regex::new` is external
library code; all that matters here is that compilation is a deterministic
function of the pattern string, so a compiled regex is modelled as carrying
the pattern it was compiled from. -/
structure Rgx where
  pattern : String
deriving DecidableEq

/-- Deterministic stand-in for the external `regex::Regex::new(s).unwrap()`
call (lib.rs:151). -/
def Rgx.compile (s : String) : Rgx := ⟨s⟩

/-- Lookup in the cache map (`regexes.get(s).cloned()`, lib.rs:148), the
`HashMap` modelled as an association list. -/
def cacheLookup : List (String × Rgx) → String → Option Rgx
  | [], _ => none
  | (k, v) :: rest, s => if k = s then some v else cacheLookup rest s

/-- `__http_router_create_regex` (lib.rs:144-156): look the pattern string up
in the cache and return the hit; otherwise compile the string, insert the
result under that exact string, and return it. -/
def createRegex (cache : List (String × Rgx)) (s : String) : Rgx × List (String × Rgx) :=
  match cacheLookup cache s with
  | some re => (re, cache)
  | none =>
    let re := Rgx.compile s
    (re, (s, re) :: cache)

/-- Cache states that can actually occur: the `REGEXES` map starts empty
(lib.rs:137-140) and is only ever written by `__http_router_create_regex`. -/
inductive CacheReachable : List (String × Rgx) → Prop
  | empty : CacheReachable []
  | step (c : List (String × Rgx)) (s : String) :
      CacheReachable c → CacheReachable (createRegex c s).2

/-- What one segment accepts between two path delimiters: a literal consumes
exactly its (unescaped) pattern text, a placeholder one or more `[\w-]`
characters. -/
def segMatches : Seg → List Char → Prop
  | .lit l, cs => litMatch l.data cs = some []
  | .param _, cs => cs ≠ [] ∧ ∀ c ∈ cs, wordHyphen c = true

/-- A path assembled from per-segment chunks, one leading `/` per chunk. -/
def chunksJoin (chunks : List (List Char)) : List Char :=
  chunks.foldr (fun ch acc => '/' :: (ch ++ acc)) []

theorem chunksJoin_cons (ch : List Char) (chunks : List (List Char)) :
    chunksJoin (ch :: chunks) = '/' :: (ch ++ chunksJoin chunks) := rfl

theorem litMatch_split (ls : List Char) :
    ∀ cs rest, litMatch ls cs = some rest →
      ∃ pre, cs = pre ++ rest ∧ litMatch ls pre = some [] := by
  induction ls with
  | nil =>
    intro cs rest h
    simp [litMatch] at h
    exact ⟨[], by simp [h], rfl⟩
  | cons l ls ih =>
    intro cs rest h
    cases cs with
    | nil => simp [litMatch] at h
    | cons c cs =>
      by_cases hc : litCharOk l c = true
      · simp [litMatch, hc] at h
        obtain ⟨pre, hpre, hm⟩ := ih cs rest h
        exact ⟨c :: pre, by simp [hpre], by simp [litMatch, hc, hm]⟩
      · simp [litMatch, hc] at h

theorem litMatch_exact :
    ∀ (ls : List Char), (∀ c ∈ ls, c ≠ '.') →
      ∀ cs rest, (litMatch ls cs = some rest ↔ cs = ls ++ rest) := by
  intro ls
  induction ls with
  | nil => intro _ cs rest; simp [litMatch]
  | cons l ls ih =>
    intro hnd cs rest
    have hl : l ≠ '.' := hnd l (by simp)
    have hnd2 : ∀ c ∈ ls, c ≠ '.' := fun c hc => hnd c (by simp [hc])
    cases cs with
    | nil => simp [litMatch]
    | cons c cs =>
      constructor
      · intro h
        by_cases hc : litCharOk l c = true
        · have hlc : l = c := by simpa [litCharOk, hl] using hc
          simp [litMatch, hc] at h
          simp [← hlc, (ih hnd2 cs rest).mp h]
        · simp [litMatch, hc] at h
      · intro h
        obtain ⟨hce, hrest⟩ : c = l ∧ cs = ls ++ rest := by simpa using h
        have hok : litCharOk l c = true := by simp [litCharOk, hl, hce]
        simp [litMatch, hok, (ih hnd2 cs rest).mpr hrest]

theorem matchChunks_decomp :
    ∀ (segs : List Seg) (cs : List Char) (caps : List String),
      matchChunks segs cs = some caps →
      ∃ chunks, cs = chunksJoin chunks ∧ List.Forall₂ segMatches segs chunks := by
  intro segs
  induction segs with
  | nil =>
    intro cs caps h
    cases cs with
    | nil => exact ⟨[], rfl, List.Forall₂.nil⟩
    | cons c cs => simp [matchChunks] at h
  | cons seg rest ih =>
    intro cs caps h
    cases cs with
    | nil => cases seg <;> simp [matchChunks] at h
    | cons c cs =>
      cases seg with
      | lit l =>
        by_cases hc : c = '/'
        · subst hc
          cases hlm : litMatch l.data cs with
          | none => simp [matchChunks, hlm] at h
          | some cs₂ =>
            simp [matchChunks, hlm] at h
            obtain ⟨pre, hpre, hm⟩ := litMatch_split l.data cs cs₂ hlm
            obtain ⟨chunks, hj, hf⟩ := ih cs₂ caps h
            refine ⟨pre :: chunks, ?_, List.Forall₂.cons hm hf⟩
            rw [chunksJoin_cons, hpre, hj]
        · simp [matchChunks, hc] at h
      | param t =>
        by_cases hc : c = '/'
        · subst hc
          by_cases hrun : (cs.takeWhile wordHyphen).isEmpty
          · simp [matchChunks, hrun] at h
          · cases hm : matchChunks rest (cs.dropWhile wordHyphen) with
            | none => simp [matchChunks, hrun, hm] at h
            | some caps₂ =>
              obtain ⟨chunks, hj, hf⟩ := ih _ caps₂ hm
              refine ⟨cs.takeWhile wordHyphen :: chunks, ?_, List.Forall₂.cons ⟨?_, ?_⟩ hf⟩
              · rw [chunksJoin_cons, ← hj, List.takeWhile_append_dropWhile]
              · intro hne
                rw [hne] at hrun
                exact hrun rfl
              · intro ch hch
                exact List.mem_takeWhile_imp hch
        · simp [matchChunks, hc] at h

theorem matchPath_head (segs : List Seg) (p : String) (caps : List String)
    (h : matchPath segs p = some caps) : p.data.head? = some '/' := by
  cases segs with
  | nil =>
    by_cases hp : p = "/"
    · subst hp; rfl
    · simp [matchPath, hp] at h
  | cons seg rest =>
    cases hd : p.data with
    | nil =>
      simp only [matchPath, hd] at h
      cases seg <;> simp [matchChunks] at h
    | cons c cs =>
      simp only [matchPath, hd] at h
      by_cases hc : c = '/'
      · simp [hc]
      · cases seg <;> simp [matchChunks, hc] at h

theorem tryRoute_noSlash {C R : Type} (e : Entry C R) (ctx : C) (m : Method) (p : String)
    (h : p.data.head? ≠ some '/') : tryRoute e ctx m p = none := by
  unfold tryRoute
  by_cases hv : m ≠ e.verb
  · simp [hv]
  · cases hm : matchPath e.segs p with
    | some caps => exact absurd (matchPath_head _ _ _ hm) h
    | none => simp [hv, hm]

theorem routeList_none {C R : Type} :
    ∀ (es : List (Entry C R)) (ctx : C) (m : Method) (p : String),
      (∀ e ∈ es, tryRoute e ctx m p = none) → routeList es ctx m p = none := by
  intro es
  induction es with
  | nil => intro ctx m p _; rfl
  | cons e es ih =>
    intro ctx m p h
    have he : tryRoute e ctx m p = none := h e (by simp)
    simp [routeList, he, ih ctx m p fun x hx => h x (by simp [hx])]

theorem routeList_first {C R : Type} :
    ∀ (front : List (Entry C R)) (e : Entry C R) (rest : List (Entry C R))
      (ctx : C) (m : Method) (p : String) (r : R),
      (∀ e2 ∈ front, tryRoute e2 ctx m p = none) → tryRoute e ctx m p = some r →
      routeList (front ++ e :: rest) ctx m p = some r := by
  intro front
  induction front with
  | nil =>
    intro e rest ctx m p r _ he
    simp [routeList, he]
  | cons f fs ih =>
    intro e rest ctx m p r h he
    have hf : tryRoute f ctx m p = none := h f (by simp)
    simp [routeList, hf, ih e rest ctx m p r (fun x hx => h x (by simp [hx])) he]

theorem cacheReachable_lookup :
    ∀ (c : List (String × Rgx)), CacheReachable c →
      ∀ k v, cacheLookup c k = some v → v = Rgx.compile k := by
  intro c h
  induction h with
  | empty => intro k v hkv; simp [cacheLookup] at hkv
  | step c2 s _ ih =>
    intro k v hkv
    cases hl : cacheLookup c2 s with
    | some re =>
      rw [show (createRegex c2 s).2 = c2 by simp [createRegex, hl]] at hkv
      exact ih k v hkv
    | none =>
      rw [show (createRegex c2 s).2 = (s, Rgx.compile s) :: c2 by simp [createRegex, hl]] at hkv
      by_cases hks : s = k
      · subst hks
        simp [cacheLookup] at hkv
        exact hkv.symm
      · simp [cacheLookup, hks] at hkv
        exact ih k v hkv

theorem effTys_nil : effTys [] = [] := rfl

/-! Concrete route tables used to instantiate the claims. -/

def fb404 : Unit → String := fun _ => "404"

def handlerTag (tag : String) : Unit → List Value → String := fun _ _ => tag

def usersParamEntry : Entry Unit String :=
  ⟨.GET, [.lit "users", .param .u32], handlerTag "user"⟩

def firstEntry : Entry Unit String :=
  ⟨.GET, [.lit "users", .param .u32], handlerTag "first"⟩

def secondEntry : Entry Unit String :=
  ⟨.GET, [.lit "users", .param .u32], handlerTag "second"⟩

def homeHandler : Unit → List Value → String := fun _ _ => "home"

/-- A template with exactly seven placeholders whose sixth declared type
(`u32`) differs from its seventh (`String`). -/
def segsSeven : List Seg :=
  [.lit "a", .param .str, .lit "b", .param .str, .lit "c", .param .str, .lit "d",
   .param .str, .lit "e", .param .str, .lit "f", .param .u32, .lit "g", .param .str]

def sevenEntry : Entry Unit String := ⟨.GET, segsSeven, handlerTag "seven"⟩

/-- A second seven-placeholder template, with the sixth declared type
`String` and the seventh `u32`. -/
def segsSevenB : List Seg :=
  [.lit "a", .param .str, .lit "b", .param .str, .lit "c", .param .str, .lit "d",
   .param .str, .lit "e", .param .str, .lit "f", .param .str, .lit "g", .param .u32]

def sevenEntryB : Entry Unit String := ⟨.GET, segsSevenB, handlerTag "sevenB"⟩

/-- Claim C1: the dispatcher should invoke a fully matching entry's handler
with the i-th captured substring parsed by the i-th declared target type for
every supported placeholder count, including exactly 7.  The code violates
this at 7 placeholders: the `@call` arm at lib.rs:225 writes
`{$id6 : $ty6 : 6}` for the last pair, so the 7th capture is parsed with the
6th declared type.  Here the route structurally matches, every capture parses
under its declared type (second conjunct), yet because `effTys` replaces the
7th type `String` by the 6th type `u32` (third conjunct) the parse of "zz"
fails and dispatch falls through to the fallback (fourth conjunct) instead of
invoking the entry's handler. -/
theorem claim1_seven_placeholder_type_slip :
    matchPath segsSeven "/a/x/b/x/c/x/d/x/e/x/f/1/g/zz"
      = some ["x", "x", "x", "x", "x", "1", "zz"] ∧
    parseAll (paramTys segsSeven) ["x", "x", "x", "x", "x", "1", "zz"]
      = some [.vstr "x", .vstr "x", .vstr "x", .vstr "x", .vstr "x", .num 1, .vstr "zz"] ∧
    effTys (paramTys segsSeven) = [.str, .str, .str, .str, .str, .u32, .u32] ∧
    dispatch [sevenEntry] fb404 () .GET "/a/x/b/x/c/x/d/x/e/x/f/1/g/zz" = "404" := by
  decide

/-- Claim C2 (counterexample): the claim states literal text is escaped before
being embedded in the matcher, so that a literal segment "a.b" would not
match a path segment "aXb".  The builder pushes the literal unescaped
(lib.rs:238), so the matcher for literal "a.b" does match "aXb" (the dot is
the regex any-character wildcard) even though "aXb" is not the literal
text. -/
theorem claim2_counterexample :
    matchPath [Seg.lit "a.b"] "/aXb" = some [] ∧ "aXb" ≠ "a.b" := by
  decide

/-- Claim C2 (amended): literal text is embedded into the matcher without
escaping, so verbatim matching is guaranteed only for literals free of regex
metacharacters: a literal none of whose characters is special in the regex
language (`regexMeta`) matches a path chunk iff the chunk is exactly the
literal text — on that metacharacter-free domain every pattern character
matches itself, in the embedding and in the real matcher alike.  Every
literal declarable through the macro is a Rust identifier token (the `@call`
arms, lib.rs:188-226, bind interspersed literals as `$p:ident`) and so
carries no metacharacter at all; declarable routes therefore match their
literals verbatim. -/
theorem claim2_literal_verbatim (l : String) (cs : List Char)
    (hnd : ∀ c ∈ l.data, regexMeta c = false) :
    segMatches (Seg.lit l) cs ↔ cs = l.data := by
  have hdot : ∀ c ∈ l.data, c ≠ '.' := by
    intro c hc heq
    rw [heq] at hc
    exact absurd (hnd '.' hc) (by decide)
  simpa [segMatches] using litMatch_exact l.data hdot cs []

theorem claim2_literal_verbatim_witness :
    segMatches (Seg.lit "users") ("users".data) :=
  (claim2_literal_verbatim "users" ("users".data) (by decide)).mpr rfl

/-- Claim C3: a failed parse of a captured substring into its DECLARED target
type should demote the structurally matching entry to a non-match.  The code
violates this through the same slip as C1: on a seven-placeholder route the
`@call` arm at lib.rs:225 parses the 7th capture with the 6th declared type,
so the 7th declared type is never consulted.  Here the route structurally
matches, the 7th capture "zz" FAILS its declared `u32` parse (second
conjunct) — the claim demands fall-through to the fallback — yet because the
type list actually used repeats the 6th type `String` (third conjunct) every
performed parse succeeds and the entry's handler is invoked (fourth
conjunct): the entry is not treated as a non-match.  (Such a route compiles
whenever the handler's 7th parameter has the 6th declared type, since
`$ty7` is unused.)  For 0-6 placeholders, and for 7 with equal 6th and 7th
types, the performed parses are the declared-type parses and the claimed
demotion does hold. -/
theorem claim3_declared_parse_failure_not_honored :
    matchPath segsSevenB "/a/x/b/x/c/x/d/x/e/x/f/x/g/zz"
      = some ["x", "x", "x", "x", "x", "x", "zz"] ∧
    parseValue Ty.u32 "zz" = none ∧
    effTys (paramTys segsSevenB) = [.str, .str, .str, .str, .str, .str, .str] ∧
    dispatch [sevenEntryB] fb404 () .GET "/a/x/b/x/c/x/d/x/e/x/f/x/g/zz"
      = "sevenB" := by
  decide

/-- Claim C4: first-match-wins — entries are attempted in declaration order,
and the first entry that fully matches determines the result: whatever
entries follow it (in particular further entries that would also fully
match), its handler's result is returned. -/
theorem claim4_first_match_wins {C R : Type} (front : List (Entry C R))
    (e : Entry C R) (rest : List (Entry C R)) (fb : C → R) (ctx : C)
    (m : Method) (p : String) (r : R)
    (hfront : ∀ e2 ∈ front, tryRoute e2 ctx m p = none)
    (he : tryRoute e ctx m p = some r) :
    dispatch (front ++ e :: rest) fb ctx m p = r := by
  simp [dispatch, routeList_first front e rest ctx m p r hfront he]

theorem claim4_first_match_wins_witness :
    dispatch [firstEntry, secondEntry] fb404 () .GET "/users/7" = "first" :=
  claim4_first_match_wins [] firstEntry [secondEntry] fb404 () .GET "/users/7"
    "first" (by simp) (by decide)

/-- Claim C5: exhaustiveness and fallback arity — when no declared entry
fully matches (each fails its verb check, structural match, or a parse), the
route loop yields nothing and dispatch returns the fallback handler applied
to the context alone; exactly one handler result (here the fallback's) is
produced. -/
theorem claim5_fallback_when_no_match {C R : Type} (es : List (Entry C R))
    (fb : C → R) (ctx : C) (m : Method) (p : String)
    (h : ∀ e ∈ es, tryRoute e ctx m p = none) :
    routeList es ctx m p = none ∧ dispatch es fb ctx m p = fb ctx := by
  have hr := routeList_none es ctx m p h
  exact ⟨hr, by simp [dispatch, hr]⟩

theorem claim5_fallback_when_no_match_witness :
    routeList [firstEntry] () .GET "/nope" = none ∧
    dispatch [firstEntry] fb404 () .GET "/nope" = fb404 () :=
  claim5_fallback_when_no_match [firstEntry] fb404 () .GET "/nope" (by decide)

/-- Claim C6: verb sensitivity with short-circuit — an entry whose declared
verb differs from the request verb never matches, for every path (the verb
check precedes any pattern work in `tryRoute`, mirroring lib.rs:230), and
dispatch skips it, continuing with the remaining entries. -/
theorem claim6_verb_short_circuit {C R : Type} (e : Entry C R)
    (es : List (Entry C R)) (fb : C → R) (ctx : C) (m : Method) (p : String)
    (h : m ≠ e.verb) :
    tryRoute e ctx m p = none ∧
    dispatch (e :: es) fb ctx m p = dispatch es fb ctx m p := by
  have ht : tryRoute e ctx m p = none := by simp [tryRoute, h]
  exact ⟨ht, by simp [dispatch, routeList, ht]⟩

theorem claim6_verb_short_circuit_witness :
    tryRoute firstEntry () .POST "/users/7" = none ∧
    dispatch [firstEntry] fb404 () .POST "/users/7"
      = dispatch ([] : List (Entry Unit String)) fb404 () .POST "/users/7" :=
  claim6_verb_short_circuit firstEntry [] fb404 () .POST "/users/7" (by decide)

/-- Claim C7: full-string anchoring — whenever a compiled pattern matches a
path, the entire path is accounted for by the declared segment sequence: the
home pattern forces the path to be exactly "/", and any other pattern forces
the path to be exactly one `/`-prefixed chunk per declared segment with each
chunk accepted by its segment; no extra leading or trailing content is
tolerated (so the route for /users matches neither "/users/1" nor "/userss"
nor "/users/"). -/
theorem claim7_full_anchoring (segs : List Seg) (p : String) (caps : List String)
    (h : matchPath segs p = some caps) :
    (segs = [] ∧ p = "/") ∨
      ∃ chunks, p.data = chunksJoin chunks ∧
        List.Forall₂ segMatches segs chunks := by
  cases segs with
  | nil =>
    refine Or.inl ⟨rfl, ?_⟩
    by_cases hp : p = "/"
    · exact hp
    · simp [matchPath, hp] at h
  | cons seg rest =>
    simp only [matchPath] at h
    exact Or.inr (matchChunks_decomp (seg :: rest) p.data caps h)

theorem claim7_full_anchoring_witness :
    ([Seg.lit "users"] = ([] : List Seg) ∧ "/users" = "/") ∨
      ∃ chunks, "/users".data = chunksJoin chunks ∧
        List.Forall₂ segMatches [Seg.lit "users"] chunks :=
  claim7_full_anchoring [Seg.lit "users"] "/users" [] (by decide)

/-- Claim C8: root path handling — a home entry (bare path `/`, zero
segments) matches no path other than "/" (including "" and "/anything"),
and when its verb matches and the path is "/", dispatching a table with the
home entry first invokes the home handler with the context and no captured
values. -/
theorem claim8_home_route {C R : Type} (verb : Method) (hd : C → List Value → R)
    (es : List (Entry C R)) (fb : C → R) (ctx : C) (m : Method) (p : String) :
    (p ≠ "/" → tryRoute (Entry.mk verb [] hd) ctx m p = none) ∧
    (m = verb → dispatch (Entry.mk verb [] hd :: es) fb ctx m "/" = hd ctx []) := by
  constructor
  · intro hp
    unfold tryRoute
    by_cases hv : m ≠ verb
    · simp [hv]
    · simp [matchPath, hp, hv]
  · intro hm
    subst hm
    simp [dispatch, routeList, tryRoute, matchPath, paramTys, effTys_nil]
    simp [parseAll]

theorem claim8_home_route_witness :
    tryRoute (Entry.mk Method.GET [] homeHandler) () Method.GET "/x" = none ∧
    dispatch [Entry.mk Method.GET [] homeHandler] fb404 () Method.GET "/"
      = homeHandler () [] :=
  ⟨(claim8_home_route Method.GET homeHandler [] fb404 () Method.GET "/x").1
      (by decide),
   (claim8_home_route Method.GET homeHandler [] fb404 () Method.GET "/x").2 rfl⟩

/-- Claim C9: pattern-cache transparency — for every cache state the program
can be in (the map starts empty and is only written by
`__http_router_create_regex` itself) and every pattern string, the
lookup-or-compile operation returns exactly the regex obtained by compiling
the string directly: on a hit the previously stored compilation of that same
string, on a miss a fresh compilation that is also stored.  Replacing it by
direct compilation therefore changes no dispatch outcome. -/
theorem claim9_cache_transparent (c : List (String × Rgx)) (s : String)
    (h : CacheReachable c) : (createRegex c s).1 = Rgx.compile s := by
  cases hl : cacheLookup c s with
  | some re =>
    have hre := cacheReachable_lookup c h s re hl
    simp [createRegex, hl, hre]
  | none => simp [createRegex, hl]

theorem claim9_cache_transparent_witness :
    (createRegex [] (buildRegexString [Seg.lit "users"])).1
      = Rgx.compile (buildRegexString [Seg.lit "users"]) :=
  claim9_cache_transparent [] (buildRegexString [Seg.lit "users"])
    CacheReachable.empty

/-- Claim C10 (implicit): every compiled matcher demands a leading path
delimiter (a non-empty template emits `/` before its first segment, the home
template compiles to `^/$`), so for a request path that does not begin with
the character `/` — including the empty path — no declared entry matches
and dispatch returns the fallback handler's result. -/
theorem claim10_no_leading_slash_fallback {C R : Type} (es : List (Entry C R))
    (fb : C → R) (ctx : C) (m : Method) (p : String)
    (h : p.data.head? ≠ some '/') :
    (∀ e ∈ es, tryRoute e ctx m p = none) ∧ dispatch es fb ctx m p = fb ctx := by
  have hall : ∀ e ∈ es, tryRoute e ctx m p = none :=
    fun e _ => tryRoute_noSlash e ctx m p h
  exact ⟨hall, by simp [dispatch, routeList_none es ctx m p hall]⟩

theorem claim10_no_leading_slash_fallback_witness :
    dispatch [firstEntry] fb404 () Method.GET "users" = fb404 () :=
  (claim10_no_leading_slash_fallback [firstEntry] fb404 () Method.GET "users"
    (by decide)).2

end HttpRouter
